import Mathlib

/-!
Verification of the transcribe tool's chunked transcription pipeline.

The development shallowly embeds the two Go program variants:
* the OpenAI variant (synchronous multipart call, plus the chunked
  orchestrator `splitAudioIntoChunks` / `transcribeAudioInChunks` and the
  renderer `saveTranscription` / `formatTimestamp`), and
* the AssemblyAI variant (upload, job submission, and the poll loop of
  `transcribeAudio`).

Numeric conventions: Go `float64` values are modelled as exact rationals
(`ℚ`); Go's `int64(x)` conversion truncates toward zero and is modelled by
`goTrunc`; Go's integer `/` and `%` truncate toward zero and are modelled
by `Int.tdiv` / `Int.tmod`.  Strings are Lean `String`s; `strings.TrimSpace`
is modelled by `trimSpace` over the Unicode white-space set used by Go.
HTTP traffic is modelled by a record carrying the status code, the raw
body, and the (optional) decoded value; file-system effects are modelled
by threading the list of existing temporary files through the functions
that create and remove them.
-/

namespace Transcribe

/-- Go conversion of a float to an integer: truncation toward zero.
Models `int(x)` / `int64(x)` applied to a non-overflowing float value. -/
def goTrunc (q : ℚ) : ℤ := q.num.tdiv q.den

/-- The white-space characters recognised by Go's `unicode.IsSpace`
(`'\t'`, `'\n'`, `'\v'`, `'\f'`, `'\r'`, `' '`, U+0085, U+00A0, and the
Unicode `White_Space` code points above Latin-1). -/
def goSpaceChars : List Char :=
  ['\t', '\n', '\x0b', '\x0c', '\r', ' ', '\u0085', '\u00a0',
   '\u1680', '\u2000', '\u2001', '\u2002', '\u2003', '\u2004', '\u2005',
   '\u2006', '\u2007', '\u2008', '\u2009', '\u200a', '\u2028', '\u2029',
   '\u202f', '\u205f', '\u3000']

/-- Go's `unicode.IsSpace`. -/
def isGoSpace (c : Char) : Bool := goSpaceChars.contains c

/-- Go's `strings.TrimSpace`: drop leading and trailing white space. -/
def trimSpace (s : String) : String :=
  ⟨((s.data.dropWhile isGoSpace).reverse.dropWhile isGoSpace).reverse⟩

/-- Go's `fmt.Sprintf("%02d", n)`: decimal rendering, zero-padded to
width two (a sign character counts toward the width). -/
def pad2 (n : ℤ) : String :=
  if 0 ≤ n ∧ n < 10 then "0" ++ toString n else toString n

namespace OpenAI

/-- One transcribed segment of the OpenAI response (`DiarizedSegment`). -/
structure DiarizedSegment where
  Speaker : String
  Start : ℚ
  End : ℚ
  Text : String
deriving DecidableEq, Repr

/-- The OpenAI API response (`TranscriptionResponse`). -/
structure TranscriptionResponse where
  Text : String
  Segments : List DiarizedSegment
deriving DecidableEq, Repr

/-- Embedding of `formatTimestamp`: seconds are scaled to integer
nanoseconds exactly as `time.Duration(seconds * float64(time.Second))`,
then `Hours`/`Minutes`/`Seconds` are exact divisions truncated by `int(·)`,
with Go's `%` (truncated modulus) applied to minutes and seconds. -/
def formatTimestamp (seconds : ℚ) : String :=
  let duration : ℤ := goTrunc (seconds * 1000000000)
  let hours : ℤ := goTrunc ((duration : ℚ) / 3600000000000)
  let minutes : ℤ := (goTrunc ((duration : ℚ) / 60000000000)).tmod 60
  let secs : ℤ := (goTrunc ((duration : ℚ) / 1000000000)).tmod 60
  pad2 hours ++ ":" ++ pad2 minutes ++ ":" ++ pad2 secs

/-- Loop body of `saveTranscription`: walks the segments carrying the
`currentSpeaker` state, emitting a blank line and a header on a speaker
change and a bare timestamp prefix otherwise, then the trimmed text and a
newline.  The state passed on is the (normalised) speaker of the current
segment, exactly as the Go loop leaves `currentSpeaker`. -/
def saveTranscriptionLoop : List DiarizedSegment → String → String
  | [], _ => ""
  | seg :: rest, currentSpeaker =>
    let startTime := formatTimestamp seg.Start
    let endTime := formatTimestamp seg.End
    let speaker := if seg.Speaker = "" then "Unknown" else seg.Speaker
    (if speaker ≠ currentSpeaker then
      (if currentSpeaker ≠ "" then "\n" else "")
        ++ "[" ++ startTime ++ " - " ++ endTime ++ "] " ++ speaker ++ ":\n"
    else
      "[" ++ startTime ++ " - " ++ endTime ++ "] ")
    ++ trimSpace seg.Text ++ "\n"
    ++ saveTranscriptionLoop rest speaker

/-- Embedding of `saveTranscription`: the text written to the output file
(file-system success is abstracted away; the function returns the bytes
that `os.WriteFile` receives). -/
def saveTranscription (transcription : TranscriptionResponse) : String :=
  if transcription.Segments.length > 0 then
    saveTranscriptionLoop transcription.Segments ""
  else
    transcription.Text ++ "\n"

/-- Constant `chunkDuration` of the chunked variant: 20-minute chunks. -/
def chunkDuration : ℕ := 1200

/-- Constant `maxDuration` of the chunked variant: the single-call
threshold in seconds. -/
def maxDuration : ℕ := 1400

/-- Chunk count computed by `splitAudioIntoChunks`:
`int(duration)/chunkDuration + 1` with Go's truncating conversion and
truncating integer division. -/
def numChunks (duration : ℚ) : ℤ := (goTrunc duration).tdiv chunkDuration + 1

/-- Source offset of the i-th chunk: `startTime := i * chunkDuration`. -/
def chunkStart (i : ℕ) : ℤ := i * chunkDuration

/-- The chunk plan of `splitAudioIntoChunks`: for each chunk index, the
source offset passed to `ffmpeg -ss` and the nominal duration passed to
`ffmpeg -t`. -/
def chunkPlan (duration : ℚ) : List (ℤ × ℤ) :=
  (List.range (numChunks duration).toNat).map
    (fun i => (chunkStart i, (chunkDuration : ℤ)))

/-- End of the audio actually extracted for chunk `i`: `ffmpeg -ss S -t L`
stops at `S + L` or at the end of the source, whichever comes first. -/
def chunkEnd (duration : ℚ) (i : ℕ) : ℚ :=
  min ((chunkStart i : ℚ) + (chunkDuration : ℚ)) duration

/-- The shifted copy produced in `transcribeAudioInChunks`: the loop
variable `segment` is a copy of the chunk's fragment whose `Start` and
`End` are increased by `timeOffset` before it is appended. -/
def shiftSegment (timeOffset : ℚ) (segment : DiarizedSegment) : DiarizedSegment :=
  { segment with Start := segment.Start + timeOffset, End := segment.End + timeOffset }

/-- Merge loop of `transcribeAudioInChunks`: accumulates `allSegments` and
`fullText` over the chunk responses, adding `timeOffset` to every fragment
of the current chunk, appending the chunk text plus one space when it is
non-empty, and advancing `timeOffset` by `chunkDuration` per chunk. -/
def mergeLoop :
    List TranscriptionResponse → List DiarizedSegment → String → ℚ →
      List DiarizedSegment × String
  | [], allSegments, fullText, _ => (allSegments, fullText)
  | t :: rest, allSegments, fullText, timeOffset =>
    mergeLoop rest (allSegments ++ t.Segments.map (shiftSegment timeOffset))
      (if t.Text ≠ "" then fullText ++ t.Text ++ " " else fullText)
      (timeOffset + (chunkDuration : ℚ))

/-- Embedding of `transcribeAudioInChunks` given the per-chunk responses:
the merged response, with the final text trimmed. -/
def transcribeAudioInChunks (chunkResponses : List TranscriptionResponse) :
    TranscriptionResponse :=
  let merged := mergeLoop chunkResponses [] "" 0
  { Text := trimSpace merged.2, Segments := merged.1 }

/-- Dispatch of `main`: durations strictly above `maxDuration` take the
chunked path (one transcription call per chunk response); otherwise one
call is issued and its response is returned verbatim.  The second
component counts the transcription calls issued. -/
def transcribePipeline (duration : ℚ) (whole : TranscriptionResponse)
    (chunkResponses : List TranscriptionResponse) : TranscriptionResponse × ℕ :=
  if duration > (maxDuration : ℚ) then
    (transcribeAudioInChunks chunkResponses, chunkResponses.length)
  else
    (whole, 1)

/-- File-system model: `os.Remove` on the list of existing chunk files. -/
def removeFile (disk : List ℕ) (path : ℕ) : List ℕ := disk.erase path

/-- File-system model: the cleanup loops `for _, chunk := range chunks {
os.Remove(chunk) }`. -/
def removeAll (disk : List ℕ) (paths : List ℕ) : List ℕ := paths.foldl removeFile disk

/-- Loop of `splitAudioIntoChunks` over the planned chunk indices,
threading the accumulated `chunks` list and the set of files on disk.
`createOk i` models whether `os.CreateTemp` succeeds for chunk `i` and
`extractOk i` whether the `ffmpeg` extraction succeeds; each failure path
performs exactly the `os.Remove` calls the Go code performs. -/
def splitLoop (createOk extractOk : ℕ → Bool) :
    List ℕ → List ℕ → List ℕ → Except String (List ℕ) × List ℕ
  | [], chunks, disk => (Except.ok chunks, disk)
  | i :: rest, chunks, disk =>
    if createOk i then
      if extractOk i then
        splitLoop createOk extractOk rest (chunks ++ [i]) (disk ++ [i])
      else
        (Except.error "ffmpeg chunk extraction failed",
          removeAll (removeFile (disk ++ [i]) i) chunks)
    else
      (Except.error "failed to create temp chunk file", removeAll disk chunks)

/-- Embedding of `splitAudioIntoChunks` at the file-system level: starts
with no chunk files on disk and walks the planned chunk indices. -/
def splitAudioIntoChunks (createOk extractOk : ℕ → Bool) (numPlanned : ℕ) :
    Except String (List ℕ) × List ℕ :=
  splitLoop createOk extractOk (List.range numPlanned) [] []

/-- Transcription loop of `transcribeAudioInChunks`: walks the chunk files
and fails with the wrapped error naming the chunk index on the first
failing transcription (`transcribeOk c` models the remote call outcome). -/
def transcribeChunkLoop (transcribeOk : ℕ → Bool) : List ℕ → ℕ → Except String Unit
  | [], _ => Except.ok ()
  | c :: rest, i =>
    if transcribeOk c then transcribeChunkLoop transcribeOk rest (i + 1)
    else Except.error ("failed to transcribe chunk " ++ toString i)

/-- Embedding of `transcribeAudioInChunks` at the file-system level: split,
then transcribe each chunk; the deferred cleanup removes every chunk file
on both the success and the failure exit, and the split function has
already cleaned up on its own failure exits. -/
def transcribeChunksRun (createOk extractOk transcribeOk : ℕ → Bool)
    (numPlanned : ℕ) : Except String Unit × List ℕ :=
  match splitAudioIntoChunks createOk extractOk numPlanned with
  | (Except.error e, disk) => (Except.error e, disk)
  | (Except.ok chunks, disk) =>
    (transcribeChunkLoop transcribeOk chunks 0, removeAll disk chunks)

end OpenAI

/-- Model of one HTTP exchange: the status code, the raw response body,
and the result of decoding the body (`none` when the body does not decode
into the expected shape). -/
structure HttpResp (α : Type) where
  code : ℕ
  raw : String
  parsed : Option α

namespace OpenAI

/-- Response handling of the synchronous `transcribeAudio`: any status
other than 200 aborts with a message carrying the status code and the raw
body; otherwise the body is decoded. -/
def transcribeAudio (resp : HttpResp TranscriptionResponse) :
    Except String TranscriptionResponse :=
  if resp.code ≠ 200 then
    Except.error ("API request failed with status " ++ toString resp.code ++ ": " ++ resp.raw)
  else
    match resp.parsed with
    | none => Except.error "failed to parse response"
    | some t => Except.ok t

end OpenAI

/-- The program writes the output file only when the pipeline result is
`ok`; every error exits the process before `saveTranscription` runs. -/
def writtenOutput {α : Type} (render : α → String) (result : Except String α) :
    Option String :=
  match result with
  | Except.error _ => none
  | Except.ok t => some (render t)

namespace AssemblyAI

/-- One transcribed utterance of the AssemblyAI response (`Utterance`);
`Start` and `End` are milliseconds. -/
structure Utterance where
  Speaker : String
  Start : ℤ
  End : ℤ
  Text : String
  Confidence : ℚ
deriving DecidableEq, Repr

/-- The AssemblyAI transcript resource (`TranscriptionResponse`). -/
structure TranscriptionResponse where
  ID : String
  Status : String
  Text : String
  Utterances : List Utterance
  Error : String
deriving DecidableEq, Repr

/-- Response handling of `uploadAudio`: non-200 statuses abort with the
status code and raw body; otherwise the upload URL is decoded. -/
def uploadAudio (resp : HttpResp String) : Except String String :=
  if resp.code ≠ 200 then
    Except.error ("upload failed with status " ++ toString resp.code ++ ": " ++ resp.raw)
  else
    match resp.parsed with
    | none => Except.error "failed to parse response"
    | some uploadURL => Except.ok uploadURL

/-- Response handling of the job-submission POST in `transcribeAudio`:
non-200 statuses abort with the status code and raw body. -/
def submitTranscript (resp : HttpResp TranscriptionResponse) :
    Except String TranscriptionResponse :=
  if resp.code ≠ 200 then
    Except.error ("transcription request failed with status " ++ toString resp.code ++ ": " ++ resp.raw)
  else
    match resp.parsed with
    | none => Except.error "failed to parse response"
    | some t => Except.ok t

/-- Response handling of one poll GET in `transcribeAudio`: the Go code
reads and decodes the body without ever inspecting `resp.StatusCode`. -/
def pollOnce (resp : HttpResp TranscriptionResponse) :
    Except String TranscriptionResponse :=
  match resp.parsed with
  | none => Except.error "failed to parse polling response"
  | some t => Except.ok t

/-- Whether a job status keeps the poll loop going. -/
def isPending (t : TranscriptionResponse) : Bool :=
  t.Status == "queued" || t.Status == "processing"

/-- The poll loop's `switch` over the decoded job statuses: `completed`
returns the transcript, `error` fails with the service-supplied message,
`queued`/`processing` sleeps three seconds and polls again, and any other
status fails immediately.  The input list is the stream of successive
decoded poll responses; `elapsed` accumulates the sleep seconds, and the
result is `none` when the loop is still running after consuming the whole
stream. -/
def pollLoop : List TranscriptionResponse → ℕ →
    Option (ℕ × Except String TranscriptionResponse)
  | [], _ => none
  | t :: rest, elapsed =>
    if t.Status = "completed" then some (elapsed, Except.ok t)
    else if t.Status = "error" then
      some (elapsed, Except.error ("transcription failed: " ++ t.Error))
    else if t.Status = "queued" ∨ t.Status = "processing" then
      pollLoop rest (elapsed + 3)
    else
      some (elapsed, Except.error ("unexpected status: " ++ t.Status))

/-- The terminal outcome the poll loop produces for a non-pending status. -/
def terminalOutcome (t : TranscriptionResponse) : Except String TranscriptionResponse :=
  if t.Status = "completed" then Except.ok t
  else if t.Status = "error" then
    Except.error ("transcription failed: " ++ t.Error)
  else
    Except.error ("unexpected status: " ++ t.Status)

end AssemblyAI

/-- Join a list of strings with a single separating occurrence of `sep`
between consecutive elements. -/
def sepJoin (sep : String) : List String → String
  | [] => ""
  | [x] => x
  | x :: y :: xs => x ++ sep ++ sepJoin sep (y :: xs)

/-- Concatenation of texts as the merge loop performs it: each non-empty
text contributes itself plus one trailing space, empty texts contribute
nothing. -/
def joinSpaced : List String → String
  | [] => ""
  | t :: rest => (if t = "" then "" else t ++ " ") ++ joinSpaced rest

/-- Concatenation of a list of strings, in order. -/
def concatLines : List String → String
  | [] => ""
  | s :: rest => s ++ concatLines rest

/-- Substring test on character lists (sliding prefix check). -/
def hasInfix (pattern : List Char) : List Char → Bool
  | [] => pattern.isEmpty
  | c :: rest => pattern.isPrefixOf (c :: rest) || hasInfix pattern rest

/-- Whether `pattern` occurs contiguously inside `s`. -/
def strContains (s pattern : String) : Bool := hasInfix pattern.data s.data

/-- Last character of a string, if any. -/
def lastChar (s : String) : Option Char := s.data.reverse.head?

/-- Second-to-last character of a string, if any. -/
def secondLastChar (s : String) : Option Char := s.data.reverse.tail.head?

/-- The string ends with a newline that is not preceded by another
newline. -/
def endsWithSingleNewline (s : String) : Prop :=
  lastChar s = some '\n' ∧ secondLastChar s ≠ some '\n'

namespace OpenAI

/-- Specification-side reading of the merged plain text: every chunk's
plain text (empty ones included) joined by a single separating space, the
result trimmed. -/
def specMergedTextClaim (texts : List String) : String :=
  trimSpace (sepJoin " " texts)

/-- Specification-side merged fragment list: the fragments of chunk `i`
shifted by chunk `i`'s source offset `chunkStart i`, in chunk order. -/
def specShiftedSegments (chunkResponses : List TranscriptionResponse) :
    List DiarizedSegment :=
  (chunkResponses.mapIdx fun i t =>
    t.Segments.map (shiftSegment ((chunkStart i : ℤ) : ℚ))).flatten

/-- Specification-side timestamp format: truncating conversion with
hours `⌊s/3600⌋`, minutes `⌊s/60⌋ mod 60`, seconds `⌊s⌋ mod 60`, each
zero-padded to two digits. -/
def specFormatTimestamp (s : ℚ) : String :=
  pad2 ⌊s / 3600⌋ ++ ":" ++ pad2 (⌊s / 60⌋ % 60) ++ ":" ++ pad2 (⌊s⌋ % 60)

/-- Normalisation of a fragment's speaker label: empty means `Unknown`. -/
def normSpeaker (s : String) : String := if s = "" then "Unknown" else s

/-- The `[start - end] ` prefix every rendered line carries. -/
def timestampPrefix (seg : DiarizedSegment) : String :=
  "[" ++ formatTimestamp seg.Start ++ " - " ++ formatTimestamp seg.End ++ "] "

/-- A non-header rendered line: timestamp prefix, trimmed text, newline. -/
def lineText (seg : DiarizedSegment) : String :=
  timestampPrefix seg ++ trimSpace seg.Text ++ "\n"

/-- Specification-side rendering of one same-speaker run: a single header
line for the first fragment, then one plain line per fragment, with no
blank line inside the run. -/
def renderRun : List DiarizedSegment → String
  | [] => ""
  | seg :: rest =>
    timestampPrefix seg ++ normSpeaker seg.Speaker ++ ":\n"
      ++ trimSpace seg.Text ++ "\n" ++ concatLines (rest.map lineText)

/-- The normalised speaker a run belongs to. -/
def runSpeaker : List DiarizedSegment → String
  | [] => ""
  | seg :: _ => normSpeaker seg.Speaker

end OpenAI

/-! Supporting lemmas. -/

/-- On non-negative values, Go's truncating conversion agrees with `⌊·⌋`. -/
lemma goTrunc_eq_floor (q : ℚ) (h : 0 ≤ q) : goTrunc q = ⌊q⌋ := by
  rw [Rat.floor_def, goTrunc,
    Int.tdiv_eq_ediv (Rat.num_nonneg.mpr h) (Int.ofNat_nonneg q.den)]

/-- Dividing the floor of `q * N` by `N * c` and flooring again is the
same as flooring `q / c`. -/
lemma floor_floor_scale (q : ℚ) (N c : ℕ) (hN : 0 < N) (hc : 0 < c) :
    ⌊((⌊q * N⌋ : ℤ) : ℚ) / ((N : ℚ) * c)⌋ = ⌊q / c⌋ := by
  have hNq : (0 : ℚ) < (N : ℚ) := by exact_mod_cast hN
  have hcq : (0 : ℚ) < (c : ℚ) := by exact_mod_cast hc
  have hNc : (0 : ℚ) < (N : ℚ) * c := by positivity
  have key : ∀ z : ℤ, z ≤ ⌊((⌊q * N⌋ : ℤ) : ℚ) / ((N : ℚ) * c)⌋ ↔ z ≤ ⌊q / c⌋ := by
    intro z
    rw [Int.le_floor, Int.le_floor, le_div_iff₀ hNc, le_div_iff₀ hcq]
    constructor
    · intro h
      have h1 : ((z * c * N : ℤ) : ℚ) ≤ ((⌊q * N⌋ : ℤ) : ℚ) := by
        push_cast
        calc ((z : ℚ)) * c * N = (z : ℚ) * ((N : ℚ) * c) := by ring
        _ ≤ ((⌊q * N⌋ : ℤ) : ℚ) := h
      have h2 : ((z * c * N : ℤ) : ℚ) ≤ q * N := h1.trans (Int.floor_le _)
      have h3 : (z : ℚ) * c * N ≤ q * N := by push_cast at h2 ⊢; linarith
      exact le_of_mul_le_mul_right h3 hNq
    · intro h
      have h1 : (z : ℚ) * c * N ≤ q * N := by
        exact mul_le_mul_of_nonneg_right h (le_of_lt hNq)
      have h2 : ((z * c * N : ℤ) : ℚ) ≤ q * N := by push_cast; linarith
      have h3 : (z * c * N : ℤ) ≤ ⌊q * N⌋ := Int.le_floor.mpr h2
      calc (z : ℚ) * ((N : ℚ) * c) = ((z * c * N : ℤ) : ℚ) := by push_cast; ring
      _ ≤ ((⌊q * N⌋ : ℤ) : ℚ) := by exact_mod_cast h3
  exact le_antisymm ((key _).mp le_rfl) ((key _).mpr le_rfl)

/-- A pattern that occurs as a contiguous infix is found by `hasInfix`. -/
lemma hasInfix_of_infix : ∀ (l pat : List Char), pat <:+: l → hasInfix pat l = true := by
  intro l
  induction l with
  | nil =>
    intro pat h
    rw [List.infix_nil] at h
    subst h
    rfl
  | cons c rest ih =>
    intro pat h
    rcases List.infix_cons_iff.mp h with hp | hi
    · simp [hasInfix, List.isPrefixOf_iff_prefix.mpr hp]
    · simp [hasInfix, ih pat hi]

/-- The second factor of a four-part concatenation is contained in it. -/
lemma strContains_mid4 (a b c d : String) : strContains (a ++ b ++ c ++ d) b = true := by
  rw [strContains]
  apply hasInfix_of_infix
  rw [String.data_append, String.data_append, String.data_append]
  rw [List.append_assoc]
  exact List.infix_append _ _ _

/-- The last factor of a four-part concatenation is contained in it. -/
lemma strContains_last4 (a b c d : String) : strContains (a ++ b ++ c ++ d) d = true := by
  rw [strContains]
  apply hasInfix_of_infix
  rw [String.data_append]
  exact (List.suffix_append _ _).isInfix

/-! Claim theorems. -/

/-- C2: for every duration at most the `maxDuration` threshold (equality
included), the orchestrator issues exactly one transcription call and
returns the whole-file response verbatim, fragments unshifted; the
chunked path is taken only for durations strictly above the threshold. -/
theorem C2_single_call_at_or_below_threshold
    (duration : ℚ) (whole : OpenAI.TranscriptionResponse)
    (chunkResponses : List OpenAI.TranscriptionResponse)
    (h : duration ≤ (OpenAI.maxDuration : ℚ)) :
    OpenAI.transcribePipeline duration whole chunkResponses = (whole, 1) := by
  rw [OpenAI.transcribePipeline, if_neg (not_lt.mpr h)]

/-- C2 witness: a duration exactly at the threshold takes the single-call
path. -/
theorem C2_witness :
    (1400 : ℚ) ≤ (OpenAI.maxDuration : ℚ) ∧
      OpenAI.transcribePipeline 1400 ⟨"hello", []⟩ [] = (⟨"hello", []⟩, 1) :=
  ⟨by norm_num [OpenAI.maxDuration],
    C2_single_call_at_or_below_threshold 1400 ⟨"hello", []⟩ []
      (by norm_num [OpenAI.maxDuration])⟩

/-- C6: for every non-negative fractional-seconds value the timestamp
formatter produces the zero-padded `HH:MM:SS` string with truncating
conversion: hours `⌊s/3600⌋`, minutes `⌊s/60⌋ mod 60`, seconds
`⌊s⌋ mod 60`. -/
theorem C6_format_timestamp_truncates (s : ℚ) (hs : 0 ≤ s) :
    OpenAI.formatTimestamp s = OpenAI.specFormatTimestamp s := by
  have hdur : (0 : ℚ) ≤ s * 1000000000 := by positivity
  have hd : goTrunc (s * 1000000000) = ⌊s * 1000000000⌋ := goTrunc_eq_floor _ hdur
  have hd0 : (0 : ℤ) ≤ goTrunc (s * 1000000000) := by
    rw [hd]; exact Int.floor_nonneg.mpr hdur
  have hq : (0 : ℚ) ≤ ((goTrunc (s * 1000000000) : ℤ) : ℚ) := by exact_mod_cast hd0
  have hH : goTrunc (((goTrunc (s * 1000000000) : ℤ) : ℚ) / 3600000000000) = ⌊s / 3600⌋ := by
    rw [goTrunc_eq_floor _ (by positivity), hd,
      show ((3600000000000 : ℚ)) = ((1000000000 : ℕ) : ℚ) * ((3600 : ℕ) : ℚ) by norm_num,
      show (s * 1000000000) = s * ((1000000000 : ℕ) : ℚ) by norm_num]
    exact floor_floor_scale s 1000000000 3600 (by norm_num) (by norm_num)
  have hM : goTrunc (((goTrunc (s * 1000000000) : ℤ) : ℚ) / 60000000000) = ⌊s / 60⌋ := by
    rw [goTrunc_eq_floor _ (by positivity), hd,
      show ((60000000000 : ℚ)) = ((1000000000 : ℕ) : ℚ) * ((60 : ℕ) : ℚ) by norm_num,
      show (s * 1000000000) = s * ((1000000000 : ℕ) : ℚ) by norm_num]
    exact floor_floor_scale s 1000000000 60 (by norm_num) (by norm_num)
  have hS : goTrunc (((goTrunc (s * 1000000000) : ℤ) : ℚ) / 1000000000) = ⌊s⌋ := by
    rw [goTrunc_eq_floor _ (by positivity), hd,
      show ((1000000000 : ℚ)) = ((1000000000 : ℕ) : ℚ) by norm_num]
    have := floor_floor_scale s 1000000000 1 (by norm_num) (by norm_num)
    simpa using this
  have hMn : (0 : ℤ) ≤ ⌊s / 60⌋ := Int.floor_nonneg.mpr (by positivity)
  have hSn : (0 : ℤ) ≤ ⌊s⌋ := Int.floor_nonneg.mpr hs
  show pad2 _ ++ ":" ++ pad2 _ ++ ":" ++ pad2 _ = _
  rw [hH, hM, hS, Int.tmod_eq_emod hMn (by norm_num), Int.tmod_eq_emod hSn (by norm_num)]
  rfl

/-- A normalised speaker label is never empty. -/
lemma normSpeaker_ne_empty (s : String) : OpenAI.normSpeaker s ≠ "" := by
  rw [OpenAI.normSpeaker]
  by_cases h : s = ""
  · rw [if_pos h]
    decide
  · rw [if_neg h]
    exact h

/-- `sepJoin` over a cons with a non-empty tail. -/
lemma sepJoin_cons (sep a : String) (l : List String) (h : l ≠ []) :
    sepJoin sep (a :: l) = a ++ sep ++ sepJoin sep l := by
  cases l with
  | nil => exact absurd rfl h
  | cons b m => rfl

/-- One step of the renderer loop, spelled out. -/
lemma saveLoop_cons (x : OpenAI.DiarizedSegment)
    (rest : List OpenAI.DiarizedSegment) (cur : String) :
    OpenAI.saveTranscriptionLoop (x :: rest) cur =
      (if (if x.Speaker = "" then "Unknown" else x.Speaker) ≠ cur then
        (if cur ≠ "" then "\n" else "") ++ "[" ++ OpenAI.formatTimestamp x.Start
          ++ " - " ++ OpenAI.formatTimestamp x.End ++ "] "
          ++ (if x.Speaker = "" then "Unknown" else x.Speaker) ++ ":\n"
      else
        "[" ++ OpenAI.formatTimestamp x.Start ++ " - "
          ++ OpenAI.formatTimestamp x.End ++ "] ")
      ++ trimSpace x.Text ++ "\n"
      ++ OpenAI.saveTranscriptionLoop rest
        (if x.Speaker = "" then "Unknown" else x.Speaker) := rfl

/-- Rendering a same-speaker stretch with that speaker current emits one
plain line per fragment and no header. -/
lemma saveLoop_run (xs : List OpenAI.DiarizedSegment)
    (ys : List OpenAI.DiarizedSegment) (s : String) :
    (∀ x ∈ xs, OpenAI.normSpeaker x.Speaker = s) →
    OpenAI.saveTranscriptionLoop (xs ++ ys) s =
      concatLines (xs.map OpenAI.lineText) ++ OpenAI.saveTranscriptionLoop ys s := by
  induction xs with
  | nil =>
    intro _
    rfl
  | cons x xs ih =>
    intro hs
    have hx : OpenAI.normSpeaker x.Speaker = s := hs x (List.mem_cons_self x xs)
    have hx' : (if x.Speaker = "" then "Unknown" else x.Speaker) = s := by
      rw [← hx]
      rfl
    rw [List.cons_append]
    simp only [OpenAI.saveTranscriptionLoop, hx']
    rw [if_neg (fun hcon => hcon rfl)]
    rw [ih (fun y hy => hs y (List.mem_cons_of_mem x hy))]
    simp [OpenAI.lineText, OpenAI.timestampPrefix, concatLines, String.append_assoc]

/-- Rendering a run decomposition: each run contributes a header and its
plain lines, consecutive runs are separated by exactly one blank line, and
a leading blank line appears exactly when a previous speaker block was
open (`cur ≠ ""`). -/
lemma saveLoop_runs :
    ∀ (rs : List (List OpenAI.DiarizedSegment)) (cur : String),
      (∀ r ∈ rs, r ≠ []) →
      (∀ r ∈ rs, ∀ x ∈ r, OpenAI.normSpeaker x.Speaker = OpenAI.runSpeaker r) →
      List.Chain' (fun a b => OpenAI.runSpeaker a ≠ OpenAI.runSpeaker b) rs →
      (cur = "" ∨ ∀ r0 ∈ rs.head?, cur ≠ OpenAI.runSpeaker r0) →
      OpenAI.saveTranscriptionLoop rs.flatten cur =
        (if rs = [] ∨ cur = "" then "" else "\n") ++
          sepJoin "\n" (rs.map OpenAI.renderRun) := by
  intro rs
  induction rs with
  | nil =>
    intro cur _ _ _ _
    simp [sepJoin, OpenAI.saveTranscriptionLoop]
  | cons r rest ih =>
    intro cur hne hspk hchain hcur
    obtain ⟨x, xs, rfl⟩ :=
      List.exists_cons_of_ne_nil (hne r (List.mem_cons_self r rest))
    have hsrw : (if x.Speaker = "" then "Unknown" else x.Speaker)
        = OpenAI.runSpeaker (x :: xs) := rfl
    have hsne : OpenAI.runSpeaker (x :: xs) ≠ "" := normSpeaker_ne_empty x.Speaker
    have hscur : (if x.Speaker = "" then "Unknown" else x.Speaker) ≠ cur := by
      rw [hsrw]
      rcases hcur with hc | hc
      · rw [hc]
        exact hsne
      · exact fun h => hc (x :: xs) (by simp) h.symm
    have hsxs : ∀ y ∈ xs, OpenAI.normSpeaker y.Speaker = OpenAI.runSpeaker (x :: xs) :=
      fun y hy => hspk (x :: xs) (List.mem_cons_self _ _) y (List.mem_cons_of_mem x hy)
    have htailspk : ∀ r ∈ rest, ∀ y ∈ r, OpenAI.normSpeaker y.Speaker = OpenAI.runSpeaker r :=
      fun r hr => hspk r (List.mem_cons_of_mem _ hr)
    have htailne : ∀ r ∈ rest, r ≠ [] := fun r hr => hne r (List.mem_cons_of_mem _ hr)
    rw [List.flatten_cons, List.cons_append]
    simp only [OpenAI.saveTranscriptionLoop]
    rw [if_pos hscur, hsrw,
      saveLoop_run xs rest.flatten (OpenAI.runSpeaker (x :: xs)) hsxs]
    cases rest with
    | nil =>
      rw [ih (OpenAI.runSpeaker (x :: xs)) htailne htailspk List.chain'_nil
        (Or.inr (by simp))]
      by_cases hc : cur = ""
      · simp [hc, sepJoin, OpenAI.renderRun, OpenAI.timestampPrefix,
          OpenAI.runSpeaker, OpenAI.normSpeaker, String.append_assoc]
      · simp [hc, sepJoin, OpenAI.renderRun, OpenAI.timestampPrefix,
          OpenAI.runSpeaker, OpenAI.normSpeaker, String.append_assoc]
        rfl
    | cons r1 rest1 =>
      have hch := List.chain'_cons.mp hchain
      rw [List.map_cons, sepJoin_cons _ _ _ (by simp)]
      rw [ih (OpenAI.runSpeaker (x :: xs)) htailne htailspk hch.2
        (Or.inr (fun r0 hr0 => by
          simp only [List.head?_cons, Option.mem_def, Option.some.injEq] at hr0
          subst hr0
          exact hch.1))]
      have hr1 : ¬(r1 :: rest1 = [] ∨ OpenAI.runSpeaker (x :: xs) = "") := by
        simp [hsne]
      rw [if_neg hr1]
      by_cases hc : cur = ""
      · simp [hc, OpenAI.renderRun, OpenAI.timestampPrefix,
          OpenAI.runSpeaker, OpenAI.normSpeaker, String.append_assoc]
      · simp [hc, OpenAI.renderRun, OpenAI.timestampPrefix,
          OpenAI.runSpeaker, OpenAI.normSpeaker, String.append_assoc]
        rfl

/-- C5: for any non-empty fragment sequence presented as its runs of
consecutive same-speaker fragments (runs non-empty, speakers normalised,
adjacent runs differing), the renderer emits one header line per run
followed by that run's plain lines with no internal blank line, and
exactly one blank line between consecutive runs; the very first fragment
opens a header block with no leading blank line. -/
theorem C5_speaker_grouped_rendering (rs : List (List OpenAI.DiarizedSegment))
    (txt : String) (hne : rs ≠ []) (hruns : ∀ r ∈ rs, r ≠ [])
    (hspk : ∀ r ∈ rs, ∀ x ∈ r, OpenAI.normSpeaker x.Speaker = OpenAI.runSpeaker r)
    (hchain : List.Chain' (fun a b => OpenAI.runSpeaker a ≠ OpenAI.runSpeaker b) rs) :
    OpenAI.saveTranscription ⟨txt, rs.flatten⟩ =
      sepJoin "\n" (rs.map OpenAI.renderRun) := by
  have hflat : rs.flatten ≠ [] := by
    obtain ⟨r, rest, rfl⟩ := List.exists_cons_of_ne_nil hne
    obtain ⟨x, xs, rfl⟩ :=
      List.exists_cons_of_ne_nil (hruns _ (List.mem_cons_self _ _))
    simp
  rw [OpenAI.saveTranscription,
    if_pos (by simpa using List.length_pos.mpr hflat)]
  rw [saveLoop_runs rs "" hruns hspk hchain (Or.inl rfl)]
  simp

/-- C5 witness: two fragments by speaker A then one by speaker B render as
two header blocks separated by one blank line. -/
theorem C5_witness :
    ([[⟨"A", 0, 1, "hi"⟩, ⟨"A", 1, 2, "yo"⟩], [⟨"B", 2, 3, "ok"⟩]] :
        List (List OpenAI.DiarizedSegment)) ≠ [] ∧
      OpenAI.saveTranscription
          ⟨"", ([[⟨"A", 0, 1, "hi"⟩, ⟨"A", 1, 2, "yo"⟩],
            [⟨"B", 2, 3, "ok"⟩]] : List (List OpenAI.DiarizedSegment)).flatten⟩ =
        sepJoin "\n"
          (([[⟨"A", 0, 1, "hi"⟩, ⟨"A", 1, 2, "yo"⟩], [⟨"B", 2, 3, "ok"⟩]] :
            List (List OpenAI.DiarizedSegment)).map OpenAI.renderRun) :=
  ⟨by decide,
    C5_speaker_grouped_rendering _ "" (by decide) (by decide) (by decide)
      (List.chain'_cons.mpr ⟨by decide, List.chain'_singleton _⟩)⟩

/-- The head of a non-trivial `dropWhile` result fails the predicate. -/
lemma dropWhile_head_false {p : Char → Bool} :
    ∀ (l : List Char) (c : Char) (rest : List Char),
      l.dropWhile p = c :: rest → p c = false := by
  intro l
  induction l with
  | nil =>
    intro c rest h
    simp at h
  | cons a l ih =>
    intro c rest h
    rw [List.dropWhile_cons] at h
    by_cases hp : p a = true
    · rw [if_pos hp] at h
      exact ih c rest h
    · rw [if_neg hp] at h
      injection h with h1 _
      subst h1
      simpa using hp

/-- A non-empty trimmed string never ends in white space. -/
lemma trimSpace_reverse_head (s : String) (h : trimSpace s ≠ "") :
    ∃ c rest, (trimSpace s).data.reverse = c :: rest ∧ isGoSpace c = false := by
  have hdata : (trimSpace s).data.reverse =
      ((s.data.dropWhile isGoSpace).reverse).dropWhile isGoSpace := by
    rw [trimSpace]
    exact List.reverse_reverse _
  have hne : ((s.data.dropWhile isGoSpace).reverse).dropWhile isGoSpace ≠ [] := by
    intro hnil
    apply h
    rw [trimSpace, hnil]
    rfl
  obtain ⟨c, rest, hcr⟩ := List.exists_cons_of_ne_nil hne
  exact ⟨c, rest, by rw [hdata, hcr], dropWhile_head_false _ c rest hcr⟩

/-- The rendered fragment loop always ends with the final fragment's
trimmed text plus one newline. -/
lemma saveLoop_ends :
    ∀ (segs : List OpenAI.DiarizedSegment) (cur : String)
      (lastseg : OpenAI.DiarizedSegment), segs.getLast? = some lastseg →
      ∃ p, OpenAI.saveTranscriptionLoop segs cur =
        p ++ (trimSpace lastseg.Text ++ "\n") := by
  intro segs
  induction segs with
  | nil =>
    intro cur l h
    simp at h
  | cons x xs ih =>
    intro cur l h
    cases xs with
    | nil =>
      rw [List.getLast?_singleton] at h
      injection h with h
      subst h
      refine ⟨(if (if x.Speaker = "" then "Unknown" else x.Speaker) ≠ cur then
          (if cur ≠ "" then "\n" else "") ++ "[" ++ OpenAI.formatTimestamp x.Start
            ++ " - " ++ OpenAI.formatTimestamp x.End ++ "] "
            ++ (if x.Speaker = "" then "Unknown" else x.Speaker) ++ ":\n"
        else
          "[" ++ OpenAI.formatTimestamp x.Start ++ " - "
            ++ OpenAI.formatTimestamp x.End ++ "] "), ?_⟩
      simp only [OpenAI.saveTranscriptionLoop]
      simp [String.append_assoc]
    | cons y ys =>
      have h' : (y :: ys).getLast? = some l := by
        rwa [List.getLast?_cons_cons] at h
      obtain ⟨p', hp'⟩ :=
        ih (if x.Speaker = "" then "Unknown" else x.Speaker) l h'
      refine ⟨(if (if x.Speaker = "" then "Unknown" else x.Speaker) ≠ cur then
          (if cur ≠ "" then "\n" else "") ++ "[" ++ OpenAI.formatTimestamp x.Start
            ++ " - " ++ OpenAI.formatTimestamp x.End ++ "] "
            ++ (if x.Speaker = "" then "Unknown" else x.Speaker) ++ ":\n"
        else
          "[" ++ OpenAI.formatTimestamp x.Start ++ " - "
            ++ OpenAI.formatTimestamp x.End ++ "] ")
        ++ trimSpace x.Text ++ "\n" ++ p', ?_⟩
      rw [saveLoop_cons, hp']
      simp [String.append_assoc]

/-- C10 (amended): the rendered text always ends with a newline; when the
fragment sequence is non-empty the output opens with the first header's
`[` (never a blank line), and the trailing newline is the only one at the
end provided the final fragment's trimmed text is non-empty; in the
plain-text fallback the trailing newline is unique provided the plain
text itself does not already end with a newline. -/
theorem C10_render_invariants (t : OpenAI.TranscriptionResponse) :
    lastChar (OpenAI.saveTranscription t) = some '\n' ∧
      (t.Segments ≠ [] → (OpenAI.saveTranscription t).data.head? = some '[') ∧
      (t.Segments = [] → lastChar t.Text ≠ some '\n' →
        endsWithSingleNewline (OpenAI.saveTranscription t)) ∧
      (∀ lastseg, t.Segments.getLast? = some lastseg →
        trimSpace lastseg.Text ≠ "" →
        endsWithSingleNewline (OpenAI.saveTranscription t)) := by
  have hnl : ("\n" : String).data = ['\n'] := rfl
  rcases hseg : t.Segments with _ | ⟨x, rest⟩
  · have hsave : OpenAI.saveTranscription t = t.Text ++ "\n" := by
      rw [OpenAI.saveTranscription, hseg]
      rfl
    refine ⟨?_, ?_, ?_, ?_⟩
    · rw [hsave, lastChar, String.data_append, hnl]
      simp
    · intro h
      exact absurd rfl h
    · intro _ hlast
      rw [hsave]
      constructor
      · rw [lastChar, String.data_append, hnl]
        simp
      · rw [secondLastChar, String.data_append, hnl]
        rw [lastChar] at hlast
        simpa using hlast
    · intro lastseg hl _
      simp at hl
  · have hsave : OpenAI.saveTranscription t =
        OpenAI.saveTranscriptionLoop (x :: rest) "" := by
      rw [OpenAI.saveTranscription, hseg, if_pos (by simp)]
    obtain ⟨l, hl⟩ : ∃ l, (x :: rest).getLast? = some l :=
      ⟨_, List.getLast?_eq_getLast _ (by simp)⟩
    obtain ⟨p, hp⟩ := saveLoop_ends (x :: rest) "" l hl
    refine ⟨?_, ?_, ?_, ?_⟩
    · rw [hsave, hp, lastChar, String.data_append, String.data_append, hnl]
      simp [List.reverse_append]
    · intro _
      rw [hsave, saveLoop_cons,
        if_pos (show (if x.Speaker = "" then "Unknown" else x.Speaker) ≠ "" from
          normSpeaker_ne_empty x.Speaker),
        if_neg (show ¬("" : String) ≠ "" from fun hcon => hcon rfl)]
      simp [String.data_append]
    · intro h
      exact absurd h (List.cons_ne_nil x rest)
    · intro lastseg hl' htrim
      rw [hl] at hl'
      injection hl' with hl'
      subst hl'
      obtain ⟨c, crest, hcrev, hcspace⟩ := trimSpace_reverse_head l.Text htrim
      constructor
      · rw [hsave, hp, lastChar, String.data_append, String.data_append, hnl]
        simp [List.reverse_append]
      · rw [hsave, hp, secondLastChar, String.data_append, String.data_append, hnl]
        simp only [List.reverse_append, List.reverse_cons, List.reverse_nil,
          List.nil_append, List.cons_append, List.tail_cons, hcrev]
        simp only [List.head?_cons, ne_eq, Option.some.injEq]
        intro hcn
        rw [hcn] at hcspace
        exact absurd hcspace (by decide)

/-- C10 counterexample: in the plain-text fallback a text that itself ends
with a newline renders with two trailing newlines, so the output does not
always end with exactly one. -/
theorem C10_counterexample :
    OpenAI.saveTranscription ⟨"hi\n", []⟩ = "hi\n\n" ∧
      ¬endsWithSingleNewline (OpenAI.saveTranscription ⟨"hi\n", []⟩) := by
  constructor
  · rfl
  · simp only [endsWithSingleNewline, lastChar, secondLastChar]
    decide

/-- C10 witness: a single non-blank fragment renders starting with `[`
and ending with exactly one newline. -/
theorem C10_witness :
    (([⟨"A", 0, 1, "hi"⟩] : List OpenAI.DiarizedSegment) ≠ []) ∧
      (OpenAI.saveTranscription ⟨"", [⟨"A", 0, 1, "hi"⟩]⟩).data.head? = some '[' ∧
      endsWithSingleNewline (OpenAI.saveTranscription ⟨"", [⟨"A", 0, 1, "hi"⟩]⟩) :=
  ⟨by decide,
    (C10_render_invariants ⟨"", [⟨"A", 0, 1, "hi"⟩]⟩).2.1 (by decide),
    (C10_render_invariants ⟨"", [⟨"A", 0, 1, "hi"⟩]⟩).2.2.2 ⟨"A", 0, 1, "hi"⟩
      (by decide) (by decide)⟩

/-- C6 witness: the formatter agrees with the truncating specification at
3661.9 seconds. -/
theorem C6_witness :
    (0 : ℚ) ≤ 36619 / 10 ∧
      OpenAI.formatTimestamp (36619 / 10) = OpenAI.specFormatTimestamp (36619 / 10) :=
  ⟨by norm_num, C6_format_timestamp_truncates (36619 / 10) (by norm_num)⟩

/-- C7: the poll loop keeps polling, three seconds of sleep per round,
exactly while the decoded status is `queued` or `processing`; the first
other status terminates it — `completed` returns the transcript, `error`
fails with the service-supplied message, and any unrecognised status fails
with an unexpected-status error instead of looping forever. -/
theorem C7_poll_loop_terminates (js : List AssemblyAI.TranscriptionResponse) (d : ℕ) :
    ((∀ j ∈ js, AssemblyAI.isPending j = true) → AssemblyAI.pollLoop js d = none) ∧
      (∀ k (hk : k < js.length),
        (∀ i (hi : i < k), AssemblyAI.isPending (js.get ⟨i, hi.trans hk⟩) = true) →
        AssemblyAI.isPending (js.get ⟨k, hk⟩) = false →
        AssemblyAI.pollLoop js d =
          some (d + 3 * k, AssemblyAI.terminalOutcome (js.get ⟨k, hk⟩))) := by
  induction js generalizing d with
  | nil =>
    refine ⟨fun _ => rfl, ?_⟩
    intro k hk
    exact absurd hk (Nat.not_lt_zero k)
  | cons t rest ih =>
    constructor
    · intro hall
      have hp : t.Status = "queued" ∨ t.Status = "processing" := by
        have ht := hall t (List.mem_cons_self t rest)
        simpa [AssemblyAI.isPending] using ht
      have hnc : ¬t.Status = "completed" := by rcases hp with h | h <;> simp [h]
      have hne : ¬t.Status = "error" := by rcases hp with h | h <;> simp [h]
      simp only [AssemblyAI.pollLoop, if_neg hnc, if_neg hne, if_pos hp]
      exact (ih (d + 3)).1 (fun j hj => hall j (List.mem_cons_of_mem _ hj))
    · intro k hk hbefore hlast
      match k, hk with
      | 0, hk =>
        have h0 : AssemblyAI.isPending t = false := by simpa using hlast
        have hq : t.Status ≠ "queued" := by
          intro h; rw [AssemblyAI.isPending, h] at h0; simp at h0
        have hpr : t.Status ≠ "processing" := by
          intro h; rw [AssemblyAI.isPending, h] at h0; simp at h0
        by_cases h1 : t.Status = "completed"
        · simp [AssemblyAI.pollLoop, AssemblyAI.terminalOutcome, h1]
        · by_cases h2 : t.Status = "error"
          · simp [AssemblyAI.pollLoop, AssemblyAI.terminalOutcome, h1, h2]
          · simp [AssemblyAI.pollLoop, AssemblyAI.terminalOutcome, h1, h2, hq, hpr]
      | k' + 1, hk =>
        have ht : AssemblyAI.isPending t = true := by
          simpa using hbefore 0 (Nat.succ_pos k')
        have hp : t.Status = "queued" ∨ t.Status = "processing" := by
          simpa [AssemblyAI.isPending] using ht
        have hnc : ¬t.Status = "completed" := by rcases hp with h | h <;> simp [h]
        have hne : ¬t.Status = "error" := by rcases hp with h | h <;> simp [h]
        have step := (ih (d + 3)).2 k' (Nat.lt_of_succ_lt_succ hk)
          (fun i hi => by simpa using hbefore (i + 1) (Nat.succ_lt_succ hi))
          (by simpa using hlast)
        simp only [AssemblyAI.pollLoop, if_neg hnc, if_neg hne, if_pos hp]
        rw [step, show d + 3 + 3 * k' = d + 3 * (k' + 1) by omega]
        simp

/-- C7 witness: a queued poll, a processing poll, then a completed poll
returns the completed transcript after two three-second sleeps. -/
theorem C7_witness :
    AssemblyAI.isPending ⟨"j", "queued", "", [], ""⟩ = true ∧
      AssemblyAI.isPending ⟨"j", "completed", "t", [], ""⟩ = false ∧
      AssemblyAI.pollLoop
          [⟨"j", "queued", "", [], ""⟩, ⟨"j", "processing", "", [], ""⟩,
            ⟨"j", "completed", "t", [], ""⟩] 0 =
        some (6, Except.ok ⟨"j", "completed", "t", [], ""⟩) := by
  refine ⟨by decide, by decide, ?_⟩
  have h := (C7_poll_loop_terminates
    [⟨"j", "queued", "", [], ""⟩, ⟨"j", "processing", "", [], ""⟩,
      ⟨"j", "completed", "t", [], ""⟩] 0).2 2 (by decide)
    (by decide) (by decide)
  simpa [AssemblyAI.terminalOutcome] using h

/-- C8 (amended): for the upload call, the job-submission call, and the
synchronous transcription call, a non-success HTTP status aborts with an
error carrying both the numeric status code and the raw body, and an
errored pipeline writes no output file; the poll GET, by contrast, never
inspects the status code (see the counterexample). -/
theorem C8_status_check_on_upload_submit_sync (code : ℕ) (raw : String)
    (pu : Option String) (pt : Option AssemblyAI.TranscriptionResponse)
    (po : Option OpenAI.TranscriptionResponse) (h : code ≠ 200) :
    (∃ msg, AssemblyAI.uploadAudio ⟨code, raw, pu⟩ = Except.error msg ∧
        strContains msg (toString code) = true ∧ strContains msg raw = true) ∧
      (∃ msg, AssemblyAI.submitTranscript ⟨code, raw, pt⟩ = Except.error msg ∧
        strContains msg (toString code) = true ∧ strContains msg raw = true) ∧
      (∃ msg, OpenAI.transcribeAudio ⟨code, raw, po⟩ = Except.error msg ∧
        strContains msg (toString code) = true ∧ strContains msg raw = true) ∧
      (∀ msg : String,
        writtenOutput OpenAI.saveTranscription
          (Except.error msg : Except String OpenAI.TranscriptionResponse) = none) := by
  refine
    ⟨⟨"upload failed with status " ++ toString code ++ ": " ++ raw, ?_,
        strContains_mid4 _ _ _ _, strContains_last4 _ _ _ _⟩,
      ⟨"transcription request failed with status " ++ toString code ++ ": " ++ raw, ?_,
        strContains_mid4 _ _ _ _, strContains_last4 _ _ _ _⟩,
      ⟨"API request failed with status " ++ toString code ++ ": " ++ raw, ?_,
        strContains_mid4 _ _ _ _, strContains_last4 _ _ _ _⟩,
      fun msg => rfl⟩
  · simp only [AssemblyAI.uploadAudio]
    rw [if_pos h]
  · simp only [AssemblyAI.submitTranscript]
    rw [if_pos h]
  · simp only [OpenAI.transcribeAudio]
    rw [if_pos h]

/-- C8 witness: a 404 upload response aborts with the code and body in the
message. -/
theorem C8_witness :
    (404 : ℕ) ≠ 200 ∧
      (∃ msg, AssemblyAI.uploadAudio ⟨404, "not found", none⟩ = Except.error msg ∧
        strContains msg (toString 404) = true ∧
        strContains msg "not found" = true) :=
  ⟨by decide,
    (C8_status_check_on_upload_submit_sync 404 "not found" none none none
      (by decide)).1⟩

/-- C8 counterexample: a poll of the job-status endpoint that comes back
with HTTP status 500 is not treated as a failure at all — the body is
decoded and, here, a completed transcript is returned, so no error
containing the status code and body is surfaced for this remote call. -/
theorem C8_counterexample :
    AssemblyAI.pollOnce ⟨500, "internal server error",
        some ⟨"j", "completed", "t", [], ""⟩⟩ =
      Except.ok ⟨"j", "completed", "t", [], ""⟩ := rfl

/-- Text accumulated by the merge loop: the starting accumulator followed
by each chunk's spaced contribution. -/
lemma mergeLoop_text (rs : List OpenAI.TranscriptionResponse)
    (segs : List OpenAI.DiarizedSegment) (txt : String) (off : ℚ) :
    (OpenAI.mergeLoop rs segs txt off).2 =
      txt ++ joinSpaced (rs.map (fun t => t.Text)) := by
  induction rs generalizing segs txt off with
  | nil => simp [OpenAI.mergeLoop, joinSpaced]
  | cons t rest ih =>
    rw [OpenAI.mergeLoop, ih, List.map_cons, joinSpaced]
    by_cases h : t.Text = ""
    · simp [h]
    · simp [h, String.append_assoc]

/-- The spaced concatenation equals the space-joined non-empty texts plus
one trailing space (or is empty when every text is empty). -/
lemma joinSpaced_eq_sepJoin (texts : List String) :
    joinSpaced texts =
      (if texts.filter (fun t => !(t == "")) = [] then ""
       else sepJoin " " (texts.filter (fun t => !(t == ""))) ++ " ") := by
  induction texts with
  | nil => simp [joinSpaced]
  | cons t rest ih =>
    by_cases h : t = ""
    · simpa [joinSpaced, h] using ih
    · rw [joinSpaced, if_neg h, List.filter_cons_of_pos (by simp [h])]
      by_cases hrest : rest.filter (fun t => !(t == "")) = []
      · rw [ih, if_pos hrest, hrest, if_neg (by simp)]
        simp [sepJoin]
      · rw [ih, if_neg hrest, if_neg (by simp)]
        obtain ⟨u, more, hu⟩ := List.exists_cons_of_ne_nil hrest
        rw [hu, sepJoin]
        simp [String.append_assoc]

/-- Trailing white space does not change the trimmed value. -/
lemma trimSpace_append_space (s : String) : trimSpace (s ++ " ") = trimSpace s := by
  rw [trimSpace, trimSpace, String.data_append]
  show String.mk (((s.data ++ [' ']).dropWhile isGoSpace).reverse.dropWhile
    isGoSpace).reverse = _
  rw [List.dropWhile_append]
  by_cases h : (s.data.dropWhile isGoSpace).isEmpty = true
  · rw [if_pos h]
    rw [List.isEmpty_iff] at h
    rw [h]
    rfl
  · rw [if_neg h, List.reverse_append]
    rfl

/-- C4 (amended): the merged plain text equals the non-empty per-chunk
texts joined by single separating spaces, with the final concatenation
trimmed; chunks whose plain text is empty are skipped entirely and
contribute no separator. -/
theorem C4_merged_text (rs : List OpenAI.TranscriptionResponse) :
    (OpenAI.transcribeAudioInChunks rs).Text =
      trimSpace (sepJoin " "
        ((rs.map (fun t => t.Text)).filter (fun t => !(t == "")))) := by
  show trimSpace (OpenAI.mergeLoop rs [] "" 0).2 = _
  rw [mergeLoop_text, joinSpaced_eq_sepJoin]
  by_cases h : (rs.map (fun t => t.Text)).filter (fun t => !(t == "")) = []
  · rw [if_pos h, h]
    rfl
  · rw [if_neg h]
    show trimSpace ("" ++ (_ ++ " ")) = _
    rw [show ("" ++ (sepJoin " " ((rs.map (fun t => t.Text)).filter
      (fun t => !(t == ""))) ++ " ")) = sepJoin " " ((rs.map (fun t => t.Text)).filter
      (fun t => !(t == ""))) ++ " " from rfl]
    exact trimSpace_append_space _

/-- C4 counterexample: with chunk texts `"a"`, `""`, `"b"` the merge
produces `"a b"`, while joining all three texts (the empty one included)
by single spaces and trimming gives `"a  b"`. -/
theorem C4_counterexample :
    (OpenAI.transcribeAudioInChunks
        [⟨"a", []⟩, ⟨"", []⟩, ⟨"b", []⟩]).Text = "a b" ∧
      OpenAI.specMergedTextClaim ["a", "", "b"] = "a  b" ∧
      ("a b" : String) ≠ "a  b" := by
  refine ⟨by decide, by decide, by decide⟩

/-- Segments accumulated by the merge loop: the starting accumulator
followed by every chunk's fragments shifted by the running offset, which
advances by `chunkDuration` per chunk. -/
lemma mergeLoop_segments (rs : List OpenAI.TranscriptionResponse)
    (segs : List OpenAI.DiarizedSegment) (txt : String) (off : ℚ) :
    (OpenAI.mergeLoop rs segs txt off).1 =
      segs ++ (rs.mapIdx fun i t =>
        t.Segments.map (OpenAI.shiftSegment (off + (i : ℚ) * (OpenAI.chunkDuration : ℚ)))).flatten := by
  induction rs generalizing segs txt off with
  | nil => simp [OpenAI.mergeLoop]
  | cons t rest ih =>
    rw [OpenAI.mergeLoop, ih, List.mapIdx_cons]
    have hfun : (fun (i : ℕ) (r : OpenAI.TranscriptionResponse) =>
        r.Segments.map (OpenAI.shiftSegment (off + ((i + 1 : ℕ) : ℚ) * (OpenAI.chunkDuration : ℚ))))
        = (fun (i : ℕ) (r : OpenAI.TranscriptionResponse) =>
        r.Segments.map (OpenAI.shiftSegment (off + (OpenAI.chunkDuration : ℚ) + (i : ℚ) * (OpenAI.chunkDuration : ℚ)))) := by
      funext i r
      have : off + ((i + 1 : ℕ) : ℚ) * (OpenAI.chunkDuration : ℚ)
          = off + (OpenAI.chunkDuration : ℚ) + (i : ℚ) * (OpenAI.chunkDuration : ℚ) := by
        push_cast
        ring
      rw [this]
    rw [hfun]
    simp [List.append_assoc]

/-- Removing each file of a list from that same list empties it. -/
lemma removeAll_self : ∀ l : List ℕ, OpenAI.removeAll l l = [] := by
  intro l
  induction l with
  | nil => rfl
  | cons x xs ih =>
    have h : OpenAI.removeAll (x :: xs) (x :: xs) = OpenAI.removeAll xs xs := by
      rw [OpenAI.removeAll, OpenAI.removeAll, List.foldl_cons]
      congr 1
      rw [OpenAI.removeFile, List.erase_cons_head]
    rw [h, ih]

/-- Removing a freshly created file from the end of the disk restores the
previous disk. -/
lemma removeFile_append_singleton (chunks : List ℕ) (i : ℕ) (h : i ∉ chunks) :
    OpenAI.removeFile (chunks ++ [i]) i = chunks := by
  rw [OpenAI.removeFile, List.erase_append_right _ h, List.erase_cons_head,
    List.append_nil]

/-- Invariant of the split loop: when the files on disk are exactly the
chunks accumulated so far and the pending indices are fresh, a successful
exit leaves exactly the returned chunk files on disk and every failure
exit leaves none. -/
lemma splitLoop_clean (createOk extractOk : ℕ → Bool) :
    ∀ (pending chunks disk : List ℕ), disk = chunks → pending.Nodup →
      (∀ i ∈ pending, i ∉ chunks) →
      (∀ cs d, OpenAI.splitLoop createOk extractOk pending chunks disk
          = (Except.ok cs, d) → d = cs) ∧
      (∀ msg d, OpenAI.splitLoop createOk extractOk pending chunks disk
          = (Except.error msg, d) → d = []) := by
  intro pending
  induction pending with
  | nil =>
    intro chunks disk hdc _ _
    constructor
    · intro cs d h
      rw [OpenAI.splitLoop] at h
      injection h with h1 h2
      injection h1 with h1
      rw [← h2, hdc, h1]
    · intro msg d h
      rw [OpenAI.splitLoop] at h
      injection h with h1 h2
      exact absurd h1 (by simp)
  | cons i rest ih =>
    intro chunks disk hdc hnd hmem
    have hfresh : i ∉ chunks := hmem i (List.mem_cons_self i rest)
    by_cases hcr : createOk i = true
    · by_cases hex : extractOk i = true
      · have hih := ih (chunks ++ [i]) (disk ++ [i]) (by rw [hdc])
          (List.Nodup.of_cons hnd) ?fresh
        case fresh =>
          intro j hj
          simp only [List.mem_append, List.mem_singleton]
          rintro (hjc | hji)
          · exact hmem j (List.mem_cons_of_mem _ hj) hjc
          · subst hji
            exact (List.nodup_cons.mp hnd).1 hj
        constructor
        · intro cs d h
          rw [OpenAI.splitLoop, if_pos hcr, if_pos hex] at h
          exact hih.1 cs d h
        · intro msg d h
          rw [OpenAI.splitLoop, if_pos hcr, if_pos hex] at h
          exact hih.2 msg d h
      · constructor
        · intro cs d h
          rw [OpenAI.splitLoop, if_pos hcr, if_neg hex] at h
          injection h with h1 h2
          exact absurd h1 (by simp)
        · intro msg d h
          rw [OpenAI.splitLoop, if_pos hcr, if_neg hex] at h
          injection h with h1 h2
          rw [← h2, hdc, removeFile_append_singleton chunks i hfresh, removeAll_self]
    · constructor
      · intro cs d h
        rw [OpenAI.splitLoop, if_neg hcr] at h
        injection h with h1 h2
        exact absurd h1 (by simp)
      · intro msg d h
        rw [OpenAI.splitLoop, if_neg hcr] at h
        injection h with h1 h2
        rw [← h2, hdc, removeAll_self]

/-- C9: whatever the outcomes of temp-file creation, chunk extraction and
per-chunk transcription, no chunk file survives the chunked operation —
success deletes all chunk files after the merge, a split failure deletes
every already-created chunk file (the failing extraction's file included)
before returning, and a mid-loop transcription failure is followed by the
deferred cleanup of every chunk file. -/
theorem C9_no_chunk_file_survives (createOk extractOk transcribeOk : ℕ → Bool)
    (numPlanned : ℕ) :
    (OpenAI.transcribeChunksRun createOk extractOk transcribeOk numPlanned).2 = [] := by
  have hinv := splitLoop_clean createOk extractOk (List.range numPlanned) [] []
    rfl (List.nodup_range numPlanned) (by simp)
  rcases hres : OpenAI.splitLoop createOk extractOk (List.range numPlanned) [] []
    with ⟨res, disk⟩
  cases res with
  | error msg =>
    have hd : disk = [] := hinv.2 msg disk hres
    simp only [OpenAI.transcribeChunksRun, OpenAI.splitAudioIntoChunks, hres, hd]
  | ok chunks =>
    have hd : disk = chunks := hinv.1 chunks disk hres
    simp only [OpenAI.transcribeChunksRun, OpenAI.splitAudioIntoChunks, hres, hd]
    exact removeAll_self chunks

/-- Flooring a rational division by a positive natural equals integer
division of the floor. -/
lemma floor_div_natCast (q : ℚ) (c : ℕ) (hc : 0 < c) :
    ⌊q / (c : ℚ)⌋ = ⌊q⌋ / (c : ℤ) := by
  have hcq : (0 : ℚ) < (c : ℚ) := by exact_mod_cast hc
  have hcz : (0 : ℤ) < (c : ℤ) := by exact_mod_cast hc
  have key : ∀ z : ℤ, z ≤ ⌊q / (c : ℚ)⌋ ↔ z ≤ ⌊q⌋ / (c : ℤ) := by
    intro z
    rw [Int.le_floor, le_div_iff₀ hcq, Int.le_ediv_iff_mul_le hcz]
    constructor
    · intro h
      exact Int.le_floor.mpr (by push_cast; exact h)
    · intro h
      have h2 : ((z * c : ℤ) : ℚ) ≤ ((⌊q⌋ : ℤ) : ℚ) := by exact_mod_cast h
      have h3 := h2.trans (Int.floor_le q)
      push_cast at h3 ⊢
      linarith
  exact le_antisymm ((key _).mp le_rfl) ((key _).mpr le_rfl)

/-- C1: for every duration strictly above the threshold the plan has
exactly `⌊D / chunkLength⌋ + 1` chunks; chunk `i` starts at `i *
chunkLength` with nominal length `chunkLength`; consecutive chunks meet
exactly (`end of chunk i` = `start of chunk i+1`), the first chunk starts
at `0`, the last extracted chunk ends at `D`, chunks do not overlap, the
final chunk's extracted length is `D − (chunkCount−1)·chunkLength`, and
every point of `[0, D]` lies in some chunk. -/
theorem C1_chunk_plan_geometry (D : ℚ) (hD : (OpenAI.maxDuration : ℚ) < D) :
    OpenAI.numChunks D = ⌊D / (OpenAI.chunkDuration : ℚ)⌋ + 1 ∧
      (OpenAI.chunkPlan D).length = (OpenAI.numChunks D).toNat ∧
      (∀ i (hi : i < (OpenAI.chunkPlan D).length),
        (OpenAI.chunkPlan D).get ⟨i, hi⟩ =
          (OpenAI.chunkStart i, (OpenAI.chunkDuration : ℤ))) ∧
      (∀ i, i + 1 < (OpenAI.numChunks D).toNat →
        OpenAI.chunkEnd D i = ((OpenAI.chunkStart (i + 1) : ℤ) : ℚ)) ∧
      OpenAI.chunkStart 0 = 0 ∧
      OpenAI.chunkEnd D ((OpenAI.numChunks D).toNat - 1) = D ∧
      (∀ i, i < (OpenAI.numChunks D).toNat →
        ((OpenAI.chunkStart i : ℤ) : ℚ) ≤ OpenAI.chunkEnd D i) ∧
      (∀ i j, i < j → j < (OpenAI.numChunks D).toNat →
        OpenAI.chunkEnd D i ≤ ((OpenAI.chunkStart j : ℤ) : ℚ)) ∧
      OpenAI.chunkEnd D ((OpenAI.numChunks D).toNat - 1) -
          ((OpenAI.chunkStart ((OpenAI.numChunks D).toNat - 1) : ℤ) : ℚ) =
        D - (((OpenAI.numChunks D).toNat : ℚ) - 1) * (OpenAI.chunkDuration : ℚ) ∧
      (∀ x : ℚ, 0 ≤ x → x ≤ D → ∃ i, i < (OpenAI.numChunks D).toNat ∧
        ((OpenAI.chunkStart i : ℤ) : ℚ) ≤ x ∧ x ≤ OpenAI.chunkEnd D i) := by
  have hcnat : 0 < OpenAI.chunkDuration := by norm_num [OpenAI.chunkDuration]
  have hcq : (0 : ℚ) < (OpenAI.chunkDuration : ℚ) := by exact_mod_cast hcnat
  have h1400 : (1400 : ℚ) < D := by
    have : ((OpenAI.maxDuration : ℕ) : ℚ) = 1400 := by norm_num [OpenAI.maxDuration]
    linarith [this ▸ hD]
  have hD0 : (0 : ℚ) ≤ D := by linarith
  have hnum : OpenAI.numChunks D = ⌊D / (OpenAI.chunkDuration : ℚ)⌋ + 1 := by
    rw [OpenAI.numChunks, goTrunc_eq_floor D hD0,
      Int.tdiv_eq_ediv (Int.floor_nonneg.mpr hD0) (Int.ofNat_nonneg _),
      floor_div_natCast D _ hcnat]
  set e : ℤ := ⌊D / (OpenAI.chunkDuration : ℚ)⌋ with he
  have he1 : 1 ≤ e := by
    rw [he]
    refine Int.le_floor.mpr ?_
    rw [le_div_iff₀ hcq]
    push_cast
    norm_num [OpenAI.chunkDuration]
    linarith
  have hle : (e : ℚ) * (OpenAI.chunkDuration : ℚ) ≤ D := by
    have h := Int.floor_le (D / (OpenAI.chunkDuration : ℚ))
    rw [← he] at h
    exact (le_div_iff₀ hcq).mp h
  have hlt : D < ((e : ℚ) + 1) * (OpenAI.chunkDuration : ℚ) := by
    have h := Int.lt_floor_add_one (D / (OpenAI.chunkDuration : ℚ))
    rw [← he] at h
    exact (div_lt_iff₀ hcq).mp h
  have hn : (OpenAI.numChunks D).toNat = e.toNat + 1 := by
    rw [hnum]
    omega
  have hentq : ((e.toNat : ℕ) : ℚ) = (e : ℚ) := by
    exact_mod_cast Int.toNat_of_nonneg (by omega)
  refine ⟨hnum, ?_, ?_, ?_, ?_, ?_, ?_, ?_, ?_, ?_⟩
  · rw [OpenAI.chunkPlan]
    simp
  · intro i hi
    simp [OpenAI.chunkPlan, List.getElem_map, List.getElem_range]
  · intro i h
    have hie : ((i : ℚ) + 1) ≤ (e : ℚ) := by
      have hi' : i + 1 ≤ e.toNat := by omega
      have : ((i + 1 : ℕ) : ℚ) ≤ ((e.toNat : ℕ) : ℚ) := by exact_mod_cast hi'
      rw [hentq] at this
      push_cast at this
      linarith
    rw [OpenAI.chunkEnd, min_eq_left ?bound]
    case bound =>
      rw [OpenAI.chunkStart]
      push_cast
      nlinarith
    rw [OpenAI.chunkStart, OpenAI.chunkStart]
    push_cast
    ring
  · simp [OpenAI.chunkStart]
  · rw [show (OpenAI.numChunks D).toNat - 1 = e.toNat from by omega,
      OpenAI.chunkEnd]
    apply min_eq_right
    rw [OpenAI.chunkStart]
    push_cast
    rw [hentq]
    linarith
  · intro i hi
    have hie : ((i : ℚ)) ≤ (e : ℚ) := by
      have hi' : i ≤ e.toNat := by omega
      have : ((i : ℕ) : ℚ) ≤ ((e.toNat : ℕ) : ℚ) := by exact_mod_cast hi'
      rw [hentq] at this
      exact this
    rw [OpenAI.chunkEnd]
    apply le_min
    · rw [OpenAI.chunkStart]
      push_cast
      linarith
    · rw [OpenAI.chunkStart]
      push_cast
      nlinarith
  · intro i j hij hj
    have hij' : ((i : ℚ) + 1) ≤ (j : ℚ) := by exact_mod_cast hij
    rw [OpenAI.chunkEnd]
    refine (min_le_left _ _).trans ?_
    rw [OpenAI.chunkStart, OpenAI.chunkStart]
    push_cast
    nlinarith
  · rw [show (OpenAI.numChunks D).toNat - 1 = e.toNat from by omega,
      OpenAI.chunkEnd, min_eq_right ?cov]
    case cov =>
      rw [OpenAI.chunkStart]
      push_cast
      rw [hentq]
      linarith
    rw [OpenAI.chunkStart, hn]
    push_cast
    rw [hentq]
    ring
  · intro x hx0 hxD
    have hfx0 : 0 ≤ ⌊x / (OpenAI.chunkDuration : ℚ)⌋ :=
      Int.floor_nonneg.mpr (by positivity)
    have hfle : ⌊x / (OpenAI.chunkDuration : ℚ)⌋ ≤ e := by
      rw [he]
      exact Int.floor_le_floor (by gcongr)
    have hiq : (((⌊x / (OpenAI.chunkDuration : ℚ)⌋).toNat : ℕ) : ℚ)
        = ((⌊x / (OpenAI.chunkDuration : ℚ)⌋ : ℤ) : ℚ) := by
      exact_mod_cast Int.toNat_of_nonneg hfx0
    refine ⟨(⌊x / (OpenAI.chunkDuration : ℚ)⌋).toNat, by omega, ?_, ?_⟩
    · rw [OpenAI.chunkStart]
      push_cast
      rw [hiq]
      have h := Int.floor_le (x / (OpenAI.chunkDuration : ℚ))
      have h2 := (le_div_iff₀ hcq).mp h
      linarith
    · rw [OpenAI.chunkEnd]
      apply le_min
      · rw [OpenAI.chunkStart]
        push_cast
        rw [hiq]
        have h := Int.lt_floor_add_one (x / (OpenAI.chunkDuration : ℚ))
        have h2 := (div_lt_iff₀ hcq).mp h
        push_cast at h2
        linarith
      · exact hxD

/-- C1 witness: at duration 2000 the plan has `⌊2000/1200⌋ + 1 = 2`
chunks. -/
theorem C1_witness :
    (OpenAI.maxDuration : ℚ) < 2000 ∧
      OpenAI.numChunks 2000 = ⌊(2000 : ℚ) / (OpenAI.chunkDuration : ℚ)⌋ + 1 :=
  ⟨by norm_num [OpenAI.maxDuration],
    (C1_chunk_plan_geometry 2000 (by norm_num [OpenAI.maxDuration])).1⟩

/-- C3: in the chunked path every fragment of chunk `i` is appended as a
shifted copy whose `Start` and `End` are the chunk-relative values plus
chunk `i`'s source offset `chunkStart i = i * chunkDuration`; the shift
only rewrites the two timestamps, leaving speaker and text intact, and the
input responses are untouched. -/
theorem C3_shifted_merge (rs : List OpenAI.TranscriptionResponse) :
    (OpenAI.transcribeAudioInChunks rs).Segments = OpenAI.specShiftedSegments rs ∧
      (∀ (off : ℚ) (f : OpenAI.DiarizedSegment),
        OpenAI.shiftSegment off f = ⟨f.Speaker, f.Start + off, f.End + off, f.Text⟩) := by
  constructor
  · show (OpenAI.mergeLoop rs [] "" 0).1 = _
    rw [mergeLoop_segments, OpenAI.specShiftedSegments]
    have hfun : (fun (i : ℕ) (t : OpenAI.TranscriptionResponse) =>
        t.Segments.map (OpenAI.shiftSegment ((0 : ℚ) + (i : ℚ) * (OpenAI.chunkDuration : ℚ))))
        = (fun (i : ℕ) (t : OpenAI.TranscriptionResponse) =>
        t.Segments.map (OpenAI.shiftSegment ((OpenAI.chunkStart i : ℤ) : ℚ))) := by
      funext i t
      have : (0 : ℚ) + (i : ℚ) * (OpenAI.chunkDuration : ℚ)
          = ((OpenAI.chunkStart i : ℤ) : ℚ) := by
        rw [OpenAI.chunkStart]
        push_cast
        ring
      rw [this]
    rw [hfun]
    rfl
  · intro off f
    rfl

end Transcribe
